import Mathlib

/-!
Verification development for the data-cleaning application.

The repository is a React frontend (`frontend/src`) talking to a FastAPI
backend over five endpoints (`/upload`, `/generate-code`, `/execute`,
`/clean`, `/session/{id}`).  The frontend source is embedded directly
(API result handling in `api.js`, the `DataCleaner` workflow component,
the `OutputViewer` component, and the CSV download serializer).  The
backend Python sources are not part of the repository snapshot; where a
property depends on backend behaviour, the corresponding definition is
modelled from the specification and is marked as such in its doc string.
-/

namespace DataClean

/-! ## Cells and basic character utilities

`Cell` models a JavaScript value stored in a result row: a string, an
integer number, or `null`/`undefined` (collapsed into `Cell.null`,
which the download code renders as the empty string via `val ?? ''`).
-/

inductive Cell where
  | str (s : String)
  | num (n : Int)
  | null
deriving DecidableEq, Repr

/-- Decimal digit characters of a natural number, most significant first.
The fuel argument bounds the recursion on division by ten. -/
def natDecGo : Nat → Nat → List Char → List Char
  | 0, _, acc => acc
  | fuel + 1, n, acc =>
    let d := Char.ofNat (48 + n % 10)
    if n < 10 then d :: acc
    else natDecGo fuel (n / 10) (d :: acc)

def natDec (n : Nat) : List Char := natDecGo (n + 1) n []

/-- Decimal rendering of an integer, as JavaScript string conversion
produces for integral numbers. -/
def intDec : Int → List Char
  | .ofNat n => natDec n
  | .negSucc n => '-' :: natDec (n + 1)

/-- Does the character list contain the character `a`? -/
def hasCharB (a : Char) (cs : List Char) : Bool :=
  cs.any (fun c => decide (c = a))

/-- Doubling of embedded double quotes, after
`val.replace(/"/g, '""')` in `DataCleaner.handleDownload`. -/
def escInner : List Char → List Char
  | [] => []
  | c :: rest =>
    if c = '"' then '"' :: '"' :: escInner rest
    else c :: escInner rest

/-- Field rendering of one cell, after the body of the `headers.map`
callback in `DataCleaner.handleDownload`: a string containing a comma
or a double quote is wrapped in double quotes with embedded quotes
doubled; any other string is emitted verbatim; `null`/`undefined`
becomes the empty string; numbers are stringified by `join`. -/
def escapeCell : Cell → List Char
  | .str s =>
    let cs := s.toList
    if hasCharB ',' cs || hasCharB '"' cs then '"' :: (escInner cs ++ ['"'])
    else cs
  | .num n => intDec n
  | .null => []

/-- Join character-list chunks with a separator character, as
`Array.prototype.join` does. -/
def joinSep (sep : Char) : List (List Char) → List Char
  | [] => []
  | [x] => x
  | x :: y :: ys => x ++ sep :: joinSep sep (y :: ys)

/-- Cell lookup in a row object: `row[header]`, with a missing key
giving `undefined` (modelled by `Cell.null`, rendered as `''`). -/
def lookupCell (row : List (String × Cell)) (h : String) : Cell :=
  match row.find? (fun p => decide (p.1 = h)) with
  | some p => p.2
  | none => Cell.null

/-- The rendered fields of one data row, after
`headers.map(header => ...)` in `DataCleaner.handleDownload`. -/
def rowFields (headers : List String) (row : List (String × Cell)) : List (List Char) :=
  headers.map (fun h => escapeCell (lookupCell row h))

/-- One serialized data line: the escaped fields joined by commas. -/
def rowLine (headers : List String) (row : List (String × Cell)) : List Char :=
  joinSep ',' (rowFields headers row)

/-- The header fields: column names taken verbatim (the source applies
no escaping to `headers.join(',')`). -/
def headerFields (headers : List String) : List (List Char) :=
  headers.map String.toList

def headerLine (headers : List String) : List Char :=
  joinSep ',' (headerFields headers)

/-- The `csvRows` array of `DataCleaner.handleDownload`: the header
line followed by one line per data row. -/
def csvLines (headers : List String) (rows : List (List (String × Cell))) :
    List (List Char) :=
  headerLine headers :: rows.map (rowLine headers)

/-- The downloaded CSV text: `csvRows.join('\n')`. -/
def serializeTable (headers : List String) (rows : List (List (String × Cell))) :
    List Char :=
  joinSep '\n' (csvLines headers rows)

/-! ## A standard delimited-text reader

`splitQ` splits a character stream at separator occurrences that lie
outside double-quoted regions, the standard way a delimited-text reader
recovers records and fields.  `scanQ` is the matching recognizer: it
returns the quote state after a chunk, or `none` if the chunk contains
a separator outside quotes. -/

def consHead (c : Char) : List (List Char) → List (List Char)
  | [] => [[c]]
  | f :: fs => (c :: f) :: fs

def splitQ (sep : Char) : List Char → Bool → List (List Char)
  | [], _ => [[]]
  | c :: rest, q =>
    if c = '"' then consHead c (splitQ sep rest (!q))
    else if c = sep ∧ q = false then [] :: splitQ sep rest false
    else consHead c (splitQ sep rest q)

def scanQ (sep : Char) : List Char → Bool → Option Bool
  | [], q => some q
  | c :: rest, q =>
    if c = '"' then scanQ sep rest (!q)
    else if c = sep ∧ q = false then none
    else scanQ sep rest q

/-- Records of a CSV text: split into lines at unquoted newlines, then
split every line into fields at unquoted commas. -/
def parseRecords (cs : List Char) : List (List (List Char)) :=
  (splitQ '\n' cs false).map (fun line => splitQ ',' line false)

/-- A cell whose string content is free of line breaks. -/
def cellNLFreeB : Cell → Bool
  | .str s => s.toList.all (fun c => decide (c ≠ '\n'))
  | _ => true

/-- A character that cannot interfere with delimited-text structure. -/
abbrev safeChar (c : Char) : Prop := c ≠ ',' ∧ c ≠ '"' ∧ c ≠ '\n'

theorem scanQ_append (sep : Char) (a : List Char) :
    ∀ (b : List Char) (q q' : Bool), scanQ sep a q = some q' →
      scanQ sep (a ++ b) q = scanQ sep b q' := by
  induction a with
  | nil =>
    intro b q q' h
    simp [scanQ] at h
    subst h
    simp
  | cons c as ih =>
    intro b q q' h
    simp only [scanQ] at h
    rw [List.cons_append]
    simp only [scanQ]
    by_cases hc : c = '"'
    · rw [if_pos hc] at h
      rw [if_pos hc]
      exact ih _ _ _ h
    · rw [if_neg hc] at h
      rw [if_neg hc]
      by_cases hs : c = sep ∧ q = false
      · rw [if_pos hs] at h
        exact absurd h (by simp)
      · rw [if_neg hs] at h
        rw [if_neg hs]
        exact ih _ _ _ h

theorem splitQ_closed (sep : Char) (cs : List Char) :
    ∀ (q q' : Bool), scanQ sep cs q = some q' → splitQ sep cs q = [cs] := by
  induction cs with
  | nil => intro q q' _; rfl
  | cons c as ih =>
    intro q q' h
    simp only [scanQ] at h
    simp only [splitQ]
    by_cases hc : c = '"'
    · rw [if_pos hc] at h
      rw [if_pos hc, ih _ _ h]
      rfl
    · rw [if_neg hc] at h
      rw [if_neg hc]
      by_cases hs : c = sep ∧ q = false
      · rw [if_pos hs] at h
        exact absurd h (by simp)
      · rw [if_neg hs] at h
        rw [if_neg hs, ih _ _ h]
        rfl

theorem splitQ_chunk (sep : Char) (hsep : sep ≠ '"') (ch : List Char) :
    ∀ (t : List Char) (q : Bool), scanQ sep ch q = some false →
      splitQ sep (ch ++ sep :: t) q = ch :: splitQ sep t false := by
  induction ch with
  | nil =>
    intro t q h
    simp [scanQ] at h
    subst h
    simp only [List.nil_append, splitQ]
    rw [if_neg hsep]
    simp
  | cons c as ih =>
    intro t q h
    simp only [scanQ] at h
    rw [List.cons_append]
    simp only [splitQ]
    by_cases hc : c = '"'
    · rw [if_pos hc] at h
      rw [if_pos hc, ih _ _ h]
      rfl
    · rw [if_neg hc] at h
      rw [if_neg hc]
      by_cases hs : c = sep ∧ q = false
      · rw [if_pos hs] at h
        exact absurd h (by simp)
      · rw [if_neg hs] at h
        rw [if_neg hs, ih _ _ h]
        rfl

theorem splitQ_join (sep : Char) (hsep : sep ≠ '"') :
    ∀ (chunks : List (List Char)), chunks ≠ [] →
      (∀ ch ∈ chunks, scanQ sep ch false = some false) →
      splitQ sep (joinSep sep chunks) false = chunks := by
  intro chunks
  induction chunks with
  | nil => intro h _; exact absurd rfl h
  | cons ch rest ih =>
    intro _ hall
    cases rest with
    | nil =>
      simp only [joinSep]
      exact splitQ_closed sep ch false false (hall ch (by simp))
    | cons ch2 rest2 =>
      simp only [joinSep]
      rw [splitQ_chunk sep hsep ch _ false (hall ch (by simp))]
      rw [ih (by simp) (fun x hx => hall x (by simp [hx]))]

theorem scanQ_no_special (sep : Char) (cs : List Char)
    (h : ∀ c ∈ cs, c ≠ sep ∧ c ≠ '"') : ∀ q, scanQ sep cs q = some q := by
  induction cs with
  | nil => intro q; rfl
  | cons c as ih =>
    intro q
    have hc := h c (by simp)
    simp only [scanQ]
    rw [if_neg hc.2, if_neg (fun hand => hc.1 hand.1)]
    exact ih (fun x hx => h x (by simp [hx])) q

theorem scanQ_escInner (sep : Char) (cs : List Char) :
    scanQ sep (escInner cs) true = some true := by
  induction cs with
  | nil => rfl
  | cons c as ih =>
    by_cases hc : c = '"'
    · rw [show escInner (c :: as) = '"' :: '"' :: escInner as from by
        simp [escInner, hc]]
      simp only [scanQ, if_pos rfl, Bool.not_true, Bool.not_false]
      exact ih
    · rw [show escInner (c :: as) = c :: escInner as from by
        simp [escInner, hc]]
      simp only [scanQ]
      rw [if_neg hc, if_neg (by simp : ¬(c = sep ∧ true = false))]
      exact ih

theorem scanQ_quoted (sep : Char) (cs : List Char) :
    scanQ sep ('"' :: (escInner cs ++ ['"'])) false = some false := by
  simp only [scanQ, if_pos rfl, Bool.not_false]
  rw [scanQ_append sep (escInner cs) ['"'] true true (scanQ_escInner sep cs)]
  simp [scanQ]

theorem digit_safe : ∀ m : Nat, m < 10 → safeChar (Char.ofNat (48 + m)) := by decide

theorem natDecGo_safe : ∀ (fuel n : Nat) (acc : List Char),
    (∀ c ∈ acc, safeChar c) → ∀ c ∈ natDecGo fuel n acc, safeChar c := by
  intro fuel
  induction fuel with
  | zero => intro n acc hacc c hc; exact hacc c hc
  | succ f ih =>
    intro n acc hacc c hc
    simp only [natDecGo] at hc
    by_cases hlt : n < 10
    · rw [if_pos hlt] at hc
      rcases List.mem_cons.mp hc with h | h
      · subst h; exact digit_safe _ (Nat.mod_lt _ (by norm_num))
      · exact hacc c h
    · rw [if_neg hlt] at hc
      refine ih (n / 10) _ ?_ c hc
      intro x hx
      rcases List.mem_cons.mp hx with h | h
      · subst h; exact digit_safe _ (Nat.mod_lt _ (by norm_num))
      · exact hacc x h

theorem natDec_safe (n : Nat) : ∀ c ∈ natDec n, safeChar c :=
  natDecGo_safe (n + 1) n [] (by simp)

theorem intDec_safe (n : Int) : ∀ c ∈ intDec n, safeChar c := by
  cases n with
  | ofNat m => exact natDec_safe m
  | negSucc m =>
    intro c hc
    rcases List.mem_cons.mp hc with h | h
    · subst h; exact (by decide : safeChar '-')
    · exact natDec_safe (m + 1) c h

theorem hasCharB_false {a : Char} {cs : List Char} (h : hasCharB a cs = false) :
    ∀ c ∈ cs, c ≠ a := by
  intro c hc heq
  rw [heq] at hc
  have ht : hasCharB a cs = true := by
    unfold hasCharB
    exact List.any_eq_true.mpr ⟨a, hc, by simp⟩
  rw [h] at ht
  exact absurd ht (by simp)

theorem field_safe_comma (cell : Cell) :
    scanQ ',' (escapeCell cell) false = some false := by
  cases cell with
  | str s =>
    cases hcond : (hasCharB ',' s.toList || hasCharB '"' s.toList) with
    | true =>
      have hesc : escapeCell (.str s) = '"' :: (escInner s.toList ++ ['"']) := by
        simp only [escapeCell]
        rw [if_pos hcond]
      rw [hesc]
      exact scanQ_quoted ',' s.toList
    | false =>
      have hne : ¬ ((hasCharB ',' s.toList || hasCharB '"' s.toList) = true) := by
        rw [hcond]; simp
      have hesc : escapeCell (.str s) = s.toList := by
        simp only [escapeCell]
        rw [if_neg hne]
      simp only [Bool.or_eq_false_iff] at hcond
      obtain ⟨h1, h2⟩ := hcond
      rw [hesc]
      exact scanQ_no_special ',' s.toList
        (fun c hc => ⟨hasCharB_false h1 c hc, hasCharB_false h2 c hc⟩) false
  | num n =>
    exact scanQ_no_special ',' (intDec n)
      (fun c hc => ⟨(intDec_safe n c hc).1, (intDec_safe n c hc).2.1⟩) false
  | null => rfl

theorem field_safe_nl (cell : Cell) (hnl : cellNLFreeB cell = true) :
    scanQ '\n' (escapeCell cell) false = some false := by
  cases cell with
  | str s =>
    cases hcond : (hasCharB ',' s.toList || hasCharB '"' s.toList) with
    | true =>
      have hesc : escapeCell (.str s) = '"' :: (escInner s.toList ++ ['"']) := by
        simp only [escapeCell]
        rw [if_pos hcond]
      rw [hesc]
      exact scanQ_quoted '\n' s.toList
    | false =>
      have hne : ¬ ((hasCharB ',' s.toList || hasCharB '"' s.toList) = true) := by
        rw [hcond]; simp
      have hesc : escapeCell (.str s) = s.toList := by
        simp only [escapeCell]
        rw [if_neg hne]
      simp only [Bool.or_eq_false_iff] at hcond
      obtain ⟨h1, h2⟩ := hcond
      have hnl' : ∀ x ∈ s.toList, x ≠ '\n' := by
        simpa [cellNLFreeB, List.all_eq_true] using hnl
      rw [hesc]
      exact scanQ_no_special '\n' s.toList
        (fun c hc => ⟨hnl' c hc, hasCharB_false h2 c hc⟩) false
  | num n =>
    exact scanQ_no_special '\n' (intDec n)
      (fun c hc => ⟨(intDec_safe n c hc).2.2, (intDec_safe n c hc).2.1⟩) false
  | null => rfl

theorem scanQ_joinSep (sep mid : Char) (hms : mid ≠ sep) (hmq : mid ≠ '"') :
    ∀ (chunks : List (List Char)),
      (∀ ch ∈ chunks, scanQ sep ch false = some false) →
      scanQ sep (joinSep mid chunks) false = some false := by
  intro chunks
  induction chunks with
  | nil => intro _; rfl
  | cons ch rest ih =>
    intro hall
    cases rest with
    | nil => simpa [joinSep] using hall ch (by simp)
    | cons ch2 rest2 =>
      simp only [joinSep]
      rw [scanQ_append sep ch _ false false (hall ch (by simp))]
      simp only [scanQ]
      rw [if_neg hmq, if_neg (fun hand => hms hand.1)]
      exact ih (fun x hx => hall x (by simp [hx]))

theorem lookupCell_nlfree (row : List (String × Cell)) (h : String)
    (hrow : ∀ p ∈ row, cellNLFreeB p.2 = true) :
    cellNLFreeB (lookupCell row h) = true := by
  unfold lookupCell
  cases hf : row.find? (fun p => decide (p.1 = h)) with
  | none => rfl
  | some p => exact hrow p (List.mem_of_find?_eq_some hf)

/-- Claim C6 (amended): in the CSV download serialization of
`DataCleaner.handleDownload`, every string field containing a comma or
a double quote is emitted wrapped in double quotes with embedded
quotes doubled; and, provided no string cell contains a line break and
the header names are free of commas, quotes, and line breaks, a
standard quote-aware delimited-text reader recovers from the
serialization exactly one record per line with the same number of
columns in every record. -/
theorem claimC6_amended (headers : List String) (rows : List (List (String × Cell)))
    (hne : headers ≠ [])
    (hhead : ∀ h ∈ headers, ∀ c ∈ h.toList, safeChar c)
    (hcells : ∀ row ∈ rows, ∀ p ∈ row, cellNLFreeB p.2 = true) :
    (∀ s : String, (hasCharB ',' s.toList || hasCharB '"' s.toList) = true →
      escapeCell (Cell.str s) = '"' :: (escInner s.toList ++ ['"'])) ∧
    ∀ rec ∈ parseRecords (serializeTable headers rows),
      rec.length = headers.length := by
  constructor
  · intro s hcond
    simp only [escapeCell]
    rw [if_pos hcond]
  · have hHdrChunks : ∀ ch ∈ headerFields headers, ∀ c ∈ ch, safeChar c := by
      intro ch hch
      simp only [headerFields, List.mem_map] at hch
      obtain ⟨h, hh, rfl⟩ := hch
      exact hhead h hh
    have hHdrComma : ∀ ch ∈ headerFields headers, scanQ ',' ch false = some false :=
      fun ch hch => scanQ_no_special ',' ch
        (fun c hc => ⟨(hHdrChunks ch hch c hc).1, (hHdrChunks ch hch c hc).2.1⟩) false
    have hHdrNL : scanQ '\n' (headerLine headers) false = some false := by
      unfold headerLine
      apply scanQ_joinSep '\n' ',' (by decide) (by decide)
      intro ch hch
      exact scanQ_no_special '\n' ch
        (fun c hc => ⟨(hHdrChunks ch hch c hc).2.2, (hHdrChunks ch hch c hc).2.1⟩) false
    have hRowFieldsComma : ∀ row, ∀ f ∈ rowFields headers row,
        scanQ ',' f false = some false := by
      intro row f hf
      simp only [rowFields, List.mem_map] at hf
      obtain ⟨h, _, rfl⟩ := hf
      exact field_safe_comma _
    have hRowFieldsNL : ∀ row ∈ rows, ∀ f ∈ rowFields headers row,
        scanQ '\n' f false = some false := by
      intro row hrow f hf
      simp only [rowFields, List.mem_map] at hf
      obtain ⟨h, _, rfl⟩ := hf
      exact field_safe_nl _ (lookupCell_nlfree row h (hcells row hrow))
    have hLineNL : ∀ line ∈ csvLines headers rows, scanQ '\n' line false = some false := by
      intro line hl
      simp only [csvLines, List.mem_cons] at hl
      rcases hl with rfl | hl
      · exact hHdrNL
      · simp only [List.mem_map] at hl
        obtain ⟨row, hrow, rfl⟩ := hl
        unfold rowLine
        exact scanQ_joinSep '\n' ',' (by decide) (by decide) _ (hRowFieldsNL row hrow)
    have hsplit : splitQ '\n' (serializeTable headers rows) false = csvLines headers rows := by
      unfold serializeTable
      exact splitQ_join '\n' (by decide) _ (by simp [csvLines]) hLineNL
    intro rec hrec
    unfold parseRecords at hrec
    rw [hsplit] at hrec
    simp only [List.mem_map] at hrec
    obtain ⟨line, hline, rfl⟩ := hrec
    simp only [csvLines, List.mem_cons] at hline
    rcases hline with rfl | hline
    · unfold headerLine
      rw [splitQ_join ',' (by decide) (headerFields headers)
        (by simpa [headerFields] using hne) hHdrComma]
      simp [headerFields]
    · simp only [List.mem_map] at hline
      obtain ⟨row, hrow, rfl⟩ := hline
      unfold rowLine
      rw [splitQ_join ',' (by decide) (rowFields headers row)
        (by simpa [rowFields] using hne) (hRowFieldsComma row)]
      simp [rowFields]

/-- Concrete inputs exhibiting the failure of claim C6 as stated: a
string cell containing a bare line break but neither comma nor quote. -/
def cexHeaders : List String := ["a", "b"]

def cexRows : List (List (String × Cell)) :=
  [[(("a" : String), Cell.str ("x\ny")), (("b" : String), Cell.str ("w"))]]

/-- Claim C6 counterexample: on the table with headers `a, b` and the
single row `{a: "x\ny", b: "w"}`, the serialization produced by
`handleDownload` does not parse back to records of two columns each (a
quote-aware reader recovers records of 2, 1 and 2 columns), because
the field `"x\ny"` contains neither comma nor quote and is therefore
emitted unquoted, with its line break splitting the record. -/
theorem claimC6_counterexample :
    ¬ ((parseRecords (serializeTable cexHeaders cexRows)).all
        (fun rec => rec.length == cexHeaders.length) = true) := by decide

/-- A comma-containing string value used to witness claim C6. -/
def witStr : String := "x,y"

/-- Claim C6 witness: the amended theorem applied at concrete input,
showing the comma-containing field `x,y` is emitted quoted. -/
theorem claimC6_witness :
    escapeCell (Cell.str witStr) = '"' :: (escInner witStr.toList ++ ['"']) :=
  (claimC6_amended cexHeaders [] (by decide) (by decide) (by decide)).1 witStr (by decide)

/-! ## The quick-clean API result (`api.js` `cleanFile`, CSV branch)

`cleanFile` with `outputFormat = "csv"` reads the response body as text
and builds `{format, data, count, total_rows, processed}` where each
numeric field is `parseInt(response.headers.get(name) || "0")`.  An
absent response header is `null` in JavaScript; `null || "0"` and
`"" || "0"` both evaluate to `"0"`.  `parseInt` is modelled by
`parseIntJS`, with `none` standing for `NaN`. -/

/-- Leading decimal digits of a character stream, `none` when the
stream does not start with a digit (`parseInt` yields `NaN`). -/
def parseNatDigits (cs : List Char) : Option Nat :=
  let ds := cs.takeWhile (fun c => c.isDigit)
  if ds = [] then none
  else some (ds.foldl (fun a c => a * 10 + (c.toNat - 48)) 0)

/-- JavaScript `parseInt` on base-10 input: skip leading spaces, accept
an optional sign, then read leading digits; `none` models `NaN`. -/
def parseIntJS (s : String) : Option Int :=
  let cs := s.toList.dropWhile (fun c => decide (c = ' '))
  match cs with
  | '-' :: rest => (parseNatDigits rest).map (fun n => -(n : Int))
  | '+' :: rest => (parseNatDigits rest).map (fun n => (n : Int))
  | _ => (parseNatDigits cs).map (fun n => (n : Int))

/-- JavaScript `x || d` for a nullable string `x`: `null` and the empty
string are falsy and give the default. -/
def jsOrDefault (o : Option String) (d : String) : String :=
  match o with
  | none => d
  | some s => if s = "" then d else s

def zeroStr : String := "0"

def csvFormatStr : String := "csv"

/-- The object returned by `cleanFile` for a CSV response.  The numeric
fields are `Option Int`, with `none` standing for JavaScript `NaN`. -/
structure CleanCsvResult where
  format : String
  data : String
  count : Option Int
  total_rows : Option Int
  processed : Option Int
deriving DecidableEq, Repr

/-- The CSV branch of `cleanFile` in `api.js` (and its copy in the
unnamed api module): the body text plus the three `X-` response
headers parsed with a `"0"` fallback.  Models the `response.ok` path;
a non-ok response throws before this object is built. -/
def cleanFileCsv (body : String) (hc ht hp : Option String) : CleanCsvResult :=
  { format := csvFormatStr
    data := body
    count := parseIntJS (jsOrDefault hc zeroStr)
    total_rows := parseIntJS (jsOrDefault ht zeroStr)
    processed := parseIntJS (jsOrDefault hp zeroStr) }

/-- JavaScript `>` on two possibly-NaN numbers: any comparison with
`NaN` is false. -/
def jsGtB : Option Int → Option Int → Bool
  | some a, some b => decide (b < a)
  | _, _ => false

/-- `OutputViewer` renders the warning span
`(processed X of Y rows - CPU mode limited)` exactly when
`data.total_rows > data.processed`. -/
def discrepancyShown (r : CleanCsvResult) : Bool :=
  jsGtB r.total_rows r.processed

/-- Claim C5: for every CSV clean-file result whose processed count is
less than its total row count, the discrepancy is surfaced: the header
values are carried into the `total_rows`/`processed` fields of the
returned object, and `OutputViewer` displays the shortfall message
whenever `total_rows > processed`, so a short result is never shown as
complete. -/
theorem claimC5 (body : String) (hc ht hp : Option String) (t p : Int)
    (h1 : (cleanFileCsv body hc ht hp).total_rows = some t)
    (h2 : (cleanFileCsv body hc ht hp).processed = some p)
    (h3 : p < t) :
    discrepancyShown (cleanFileCsv body hc ht hp) = true := by
  unfold discrepancyShown
  rw [h1, h2]
  simp [jsGtB, h3]

/-- Header strings used in the claim C5 witness. -/
def fiveStr : String := "5"

def threeStr : String := "3"

/-- Claim C5 witness: with `X-Total-Rows: 5` and `X-Processed: 3` the
discrepancy message is displayed. -/
theorem claimC5_witness :
    discrepancyShown (cleanFileCsv zeroStr (some fiveStr) (some fiveStr) (some threeStr)) = true :=
  claimC5 zeroStr (some fiveStr) (some fiveStr) (some threeStr) 5 3
    (by decide) (by decide) (by decide)

/-- Claim C10: for a CSV `cleanFile` response, whenever one of the
`X-Count`, `X-Total-Rows`, `X-Processed` headers is absent, the
corresponding field of the returned object is the number `0`, not a
missing value: the `|| "0"` fallback feeds `parseInt("0") = 0`. -/
theorem claimC10 (body : String) (hc ht hp : Option String) :
    (hc = none → (cleanFileCsv body hc ht hp).count = some 0) ∧
    (ht = none → (cleanFileCsv body hc ht hp).total_rows = some 0) ∧
    (hp = none → (cleanFileCsv body hc ht hp).processed = some 0) := by
  refine ⟨?_, ?_, ?_⟩ <;> intro h <;> subst h <;> rfl

/-- Claim C10 witness: with all three headers absent, all three fields
are `0`. -/
theorem claimC10_witness :
    (cleanFileCsv zeroStr none none none).count = some 0 ∧
    (cleanFileCsv zeroStr none none none).total_rows = some 0 ∧
    (cleanFileCsv zeroStr none none none).processed = some 0 :=
  ⟨(claimC10 zeroStr none none none).1 rfl,
   (claimC10 zeroStr none none none).2.1 rfl,
   (claimC10 zeroStr none none none).2.2 rfl⟩

/-! ## The `DataCleaner` workflow state machine

The interactive component holds a `step` state with values
`upload | preview | code | result`, which realise the orchestrator
states Uploaded, Previewed, CodeApproved and Executed.  Each handler
awaits one API call; the call either resolves with a payload or
throws, and the handler's `try/catch` decides the next state.  The
handlers are embedded as functions from the current component state
and the call's outcome to the next component state. -/

inductive Step where
  | upload
  | preview
  | code
  | result
deriving DecidableEq, Repr

inductive Mode where
  | interactive
  | quick
deriving DecidableEq, Repr

/-- Payload of a successful `/upload` call. -/
structure UploadResp where
  session_id : String
deriving DecidableEq, Repr

/-- Payload of a successful `/generate-code` call. -/
structure GenResp where
  generated_code : String
deriving DecidableEq, Repr

/-- Opaque payload of a successful `/execute` or `/clean` call, stored
by the component without further inspection. -/
structure RemoteResult where
  payload : String
deriving DecidableEq, Repr

/-- The `useState` slots of the `DataCleaner` component. -/
structure UIState where
  step : Step
  mode : Mode
  sessionId : Option String
  uploadData : Option UploadResp
  instruction : String
  generatedCode : String
  result : Option RemoteResult
  errorMsg : Option String
deriving DecidableEq, Repr

/-- Remove leading and trailing spaces, modelling `String.prototype.trim`
for the whitespace the instruction box can contain. -/
def trimSpaces (cs : List Char) : List Char :=
  ((cs.dropWhile (fun c => decide (c = ' '))).reverse.dropWhile
    (fun c => decide (c = ' '))).reverse

def jsTrim (s : String) : String := String.mk (trimSpaces s.toList)

/-- `handleUpload`: in quick mode the component calls `cleanFile` and
jumps straight to the result step; in interactive mode it calls
`uploadFile` and moves to the preview step; a thrown error only sets
the error message. -/
def handleUpload (s : UIState) (quickOut : Except String RemoteResult)
    (upOut : Except String UploadResp) : UIState :=
  match s.mode with
  | .quick =>
    match quickOut with
    | .ok r => { s with errorMsg := none, result := some r, step := .result }
    | .error e => { s with errorMsg := some e }
  | .interactive =>
    match upOut with
    | .ok d =>
      { s with
        errorMsg := none
        sessionId := some d.session_id
        uploadData := some d
        step := .preview }
    | .error e => { s with errorMsg := some e }

/-- `handleGenerateCode`: guarded by a non-blank instruction; on success
stores the generated code and moves to the code step; a thrown error
only sets the error message. -/
def handleGenerateCode (s : UIState) (genOut : Except String GenResp) : UIState :=
  if jsTrim s.instruction = "" then s
  else
    match genOut with
    | .ok d => { s with errorMsg := none, generatedCode := d.generated_code, step := .code }
    | .error e => { s with errorMsg := some e }

/-- `handleExecute`: on success stores the result and moves to the
result step; a thrown error (validator rejection or executor failure
surfaced as a non-ok HTTP response in `api.js`) only sets the error
message, leaving every other slot as it was. -/
def handleExecute (s : UIState) (exOut : Except String RemoteResult) : UIState :=
  match exOut with
  | .ok d => { s with errorMsg := none, result := some d, step := .result }
  | .error e => { s with errorMsg := some e }

/-- Claim C4: an execute request issued at the code-approved step
leaves the workflow at that same step when the call fails (so the
caller can edit the same code and retry, with the code and session
untouched), and advances to the executed step exactly on success. -/
theorem claimC4 (s : UIState) (e : String) (d : RemoteResult)
    (h : s.step = Step.code) :
    (handleExecute s (.error e)).step = Step.code ∧
    (handleExecute s (.error e)).generatedCode = s.generatedCode ∧
    (handleExecute s (.error e)).sessionId = s.sessionId ∧
    (handleExecute s (.error e)).uploadData = s.uploadData ∧
    (handleExecute s (.ok d)).step = Step.result := by
  refine ⟨?_, rfl, rfl, rfl, rfl⟩
  simpa [handleExecute] using h

/-- A concrete component state sitting at the code-approved step. -/
def demoCodeState : UIState :=
  { step := .code, mode := .interactive, sessionId := some ("sid")
    uploadData := none, instruction := "Remove duplicates"
    generatedCode := "df = df.drop_duplicates()", result := none, errorMsg := none }

/-- Claim C4 witness: the theorem applied at a concrete state. -/
theorem claimC4_witness :
    (handleExecute demoCodeState (.error ("boom"))).step = Step.code ∧
    (handleExecute demoCodeState (.error ("boom"))).generatedCode = demoCodeState.generatedCode ∧
    (handleExecute demoCodeState (.error ("boom"))).sessionId = demoCodeState.sessionId ∧
    (handleExecute demoCodeState (.error ("boom"))).uploadData = demoCodeState.uploadData ∧
    (handleExecute demoCodeState (.ok ⟨"rows"⟩)).step = Step.result :=
  claimC4 demoCodeState ("boom") ⟨"rows"⟩ rfl

/-- Claim C8: a code-generation request issued at the preview step with
a non-blank instruction leaves the workflow at the preview step with
the session untouched when the collaborator call fails, and advances
to the code step, storing the returned code string, exactly when a
code string is returned. -/
theorem claimC8 (s : UIState) (e : String) (d : GenResp)
    (h : s.step = Step.preview) (h2 : jsTrim s.instruction ≠ "") :
    (handleGenerateCode s (.error e)).step = Step.preview ∧
    (handleGenerateCode s (.error e)).sessionId = s.sessionId ∧
    (handleGenerateCode s (.error e)).uploadData = s.uploadData ∧
    (handleGenerateCode s (.error e)).instruction = s.instruction ∧
    (handleGenerateCode s (.ok d)).step = Step.code ∧
    (handleGenerateCode s (.ok d)).generatedCode = d.generated_code := by
  unfold handleGenerateCode
  rw [if_neg h2, if_neg h2]
  exact ⟨h, rfl, rfl, rfl, rfl, rfl⟩

/-- A concrete component state sitting at the preview step. -/
def demoPreviewState : UIState :=
  { step := .preview, mode := .interactive, sessionId := some ("sid")
    uploadData := some ⟨"sid"⟩, instruction := "Remove duplicates"
    generatedCode := "", result := none, errorMsg := none }

/-- Claim C8 witness: the theorem applied at a concrete state. -/
theorem claimC8_witness :
    (handleGenerateCode demoPreviewState (.error ("timeout"))).step = Step.preview ∧
    (handleGenerateCode demoPreviewState (.error ("timeout"))).sessionId = demoPreviewState.sessionId ∧
    (handleGenerateCode demoPreviewState (.error ("timeout"))).uploadData = demoPreviewState.uploadData ∧
    (handleGenerateCode demoPreviewState (.error ("timeout"))).instruction = demoPreviewState.instruction ∧
    (handleGenerateCode demoPreviewState (.ok ⟨"df = df"⟩)).step = Step.code ∧
    (handleGenerateCode demoPreviewState (.ok ⟨"df = df"⟩)).generatedCode = "df = df" :=
  claimC8 demoPreviewState ("timeout") ⟨"df = df"⟩ rfl (by decide)

/-! ## Backend model

The backend Python package (`backend/app`: `main.py`, `cleaner.py`,
validator and sandbox) is not part of the repository snapshot; only
its callers (`api.js`) and its documentation (the README's Safety
Guarantees and Key Principles sections) are.  The definitions below
are therefore modelled from the specification, as their doc strings
state, and the claims they settle are reported as spec-modelled. -/

/-- Modelled from the spec: a session's table, an ordered header list
with row-major cells. -/
structure Table where
  cols : List String
  rows : List (List Cell)
deriving DecidableEq, Repr

/-- Keep the first occurrence of every row, as `drop_duplicates` does. -/
def dedupRows : List (List Cell) → List (List Cell)
  | [] => []
  | r :: rs => r :: dedupRows (rs.filter (fun x => decide (x ≠ r)))
termination_by l => l.length
decreasing_by
  simp only [List.length_cons]
  exact Nat.lt_succ_of_le (List.length_filter_le _ _)

/-- Modelled from the spec: the fixed allowlisted data operations the
sandbox can run (the README's example pandas requests). -/
inductive Op where
  | dropDup
  | dropNulls
  | fillZero
deriving DecidableEq, Repr

def applyOp : Op → Table → Table
  | .dropDup, t => { t with rows := dedupRows t.rows }
  | .dropNulls, t =>
    { t with rows := t.rows.filter (fun r => !(r.any (fun c => decide (c = Cell.null)))) }
  | .fillZero, t =>
    { t with rows := t.rows.map (fun r =>
        r.map (fun c => if c = Cell.null then Cell.num 0 else c)) }

def runOps (ops : List Op) (t : Table) : Table :=
  ops.foldl (fun acc op => applyOp op acc) t

/-- Ambient state outside the sandbox: wall clock, random seed and
external mutable state.  The determinism requirement says the executor
must not consult any of it. -/
structure Env where
  wallClock : Nat
  randomSeed : Nat
  externalState : List String
deriving DecidableEq, Repr

def defaultEnv : Env := { wallClock := 0, randomSeed := 0, externalState := [] }

inductive ExecOutcome where
  | success (t : Table)
  | validationRejected (reason : String)
  | runtimeError (kind : String)
  | resourceExceeded
deriving DecidableEq, Repr

/-- Modelled from the spec: the configured execution budget; each
allowlisted operation costs one unit. -/
def defaultTimeout : Nat := 5

/-- Split a character stream at every occurrence of a character. -/
def splitOnChar (sep : Char) : List Char → List (List Char)
  | [] => [[]]
  | c :: rest =>
    if c = sep then [] :: splitOnChar sep rest
    else consHead c (splitOnChar sep rest)

def lineDropDup : String := "df = df.drop_duplicates()"

def lineDropNulls : String := "df = df.dropna()"

def lineFillZero : String := "df = df.fillna(0)"

/-- Modelled from the spec: one source line resolved against the fixed
operation surface; anything else is a runtime failure, not a crash. -/
def parseOpL (line : List Char) : Option Op :=
  if line = lineDropDup.toList then some .dropDup
  else if line = lineDropNulls.toList then some .dropNulls
  else if line = lineFillZero.toList then some .fillZero
  else none

/-- Modelled from the spec: a code string as a sequence of operation
lines (blank lines ignored). -/
def parseOps (source : String) : Option (List Op) :=
  (((splitOnChar '\n' source.toList).map trimSpaces).filter
    (fun l => decide (l ≠ []))).mapM parseOpL

def kindUnknownOp : String := "unknown-operation"

/-- Modelled from the spec: the sandbox executor.  It resolves the
source against the fixed operation surface, enforces the execution
budget, and by construction never reads the ambient environment — the
spec's determinism requirement (`backend` sandbox not in src/). -/
def executeEnv (source : String) (t : Table) (env : Env) : ExecOutcome :=
  match parseOps source with
  | none => .runtimeError kindUnknownOp
  | some ops =>
    if ops.length > defaultTimeout then .resourceExceeded
    else .success (runOps ops t)

/-- Identifier characters, as Python tokenizes names. -/
def isIdentChar (c : Char) : Bool := c.isAlpha || c.isDigit || c == '_'

/-- Maximal identifier runs of a character stream. -/
def identsGo : List Char → List Char → List (List Char)
  | [], cur => if cur = [] then [] else [cur.reverse]
  | c :: rest, cur =>
    if isIdentChar c then identsGo rest (c :: cur)
    else if cur = [] then identsGo rest []
    else cur.reverse :: identsGo rest []

def identsOf (s : String) : List (List Char) := identsGo s.toList []

/-- Modelled from the spec: the validator's fixed denylist — import
machinery, file-system, network, process/environment and reflection
capabilities (README Safety Guarantees; spec section 4.3). -/
def denylist : List String :=
  ["import", "__import__", "open", "read", "write", "exec", "eval", "compile",
   "os", "sys", "subprocess", "requests", "urllib", "socket", "shutil",
   "pathlib", "environ", "globals", "locals", "getattr", "setattr"]

/-- Does the source mention any denylisted identifier? -/
def containsForbidden (source : String) : Bool :=
  (identsOf source).any (fun id => denylist.any (fun d => decide (d.toList = id)))

inductive VResult where
  | accept
  | reject (reason : String)
deriving DecidableEq, Repr

def reasonForbidden : String := "forbidden-identifier"

/-- Modelled from the spec: `validate(source)`, a static fail-closed
gate run before any execution (backend validator not in src/). -/
def validate (source : String) : VResult :=
  if containsForbidden source then .reject reasonForbidden else .accept

/-- Modelled from the spec: one execute request — the validator runs
first, and only an accepted source reaches the executor.  The Boolean
component records whether the executor was invoked. -/
def runRequest (source : String) (t : Table) : ExecOutcome × Bool :=
  match validate source with
  | .reject r => (.validationRejected r, false)
  | .accept => (executeEnv source t defaultEnv, true)

/-- Modelled from the spec: a stored session — table plus append-only
history of executed code (backend session store not in src/). -/
structure Session where
  table : Table
  history : List String
deriving DecidableEq, Repr

abbrev SessionStore := List (String × Session)

inductive SessionErr where
  | notFound
deriving DecidableEq, Repr

/-- Modelled from the spec: `get(id)`, failing with NotFound for an
absent id. -/
def getSession (st : SessionStore) (id : String) : Except SessionErr Session :=
  match st.find? (fun p => decide (p.1 = id)) with
  | some p => .ok p.2
  | none => .error .notFound

/-- Modelled from the spec: `delete(id) -> bool`, removing the session
when present and reporting whether anything was removed. -/
def deleteSession (st : SessionStore) (id : String) : SessionStore × Bool :=
  if st.any (fun p => decide (p.1 = id)) then
    (st.filter (fun p => decide (p.1 ≠ id)), true)
  else (st, false)

/-- Modelled from the spec: `replace`, the single all-or-nothing
mutation path. -/
def replaceSession (st : SessionStore) (id : String) (sess : Session) : SessionStore :=
  st.map (fun p => if p.1 = id then (id, sess) else p)

/-- Commit step of the `/execute` endpoint: only a successful outcome
is swapped back into the store; every other outcome leaves the store
as it was. -/
def execApply (st : SessionStore) (id : String) (source : String) (sess : Session) :
    Except SessionErr ExecOutcome × SessionStore :=
  match runRequest source sess.table with
  | (.success t2, _) =>
    (.ok (.success t2),
     replaceSession st id { table := t2, history := sess.history ++ [source] })
  | (out, _) => (.ok out, st)

/-- Modelled from the spec: the `/execute` endpoint — look the session
up, run the request on the session's table (the executor operates on
its own copy by value semantics), and commit via `execApply`. -/
def execEndpoint (st : SessionStore) (id : String) (source : String) :
    Except SessionErr ExecOutcome × SessionStore :=
  match getSession st id with
  | .error e => (.error e, st)
  | .ok sess => execApply st id source sess

/-- Recognizer for a resource-exceeded endpoint outcome. -/
def isResourceExceeded : Except SessionErr ExecOutcome → Bool
  | .ok .resourceExceeded => true
  | _ => false

/-- API calls issued by `handleUpload`, by mode: in quick mode exactly
one `cleanFile` call, in interactive mode exactly one `uploadFile`
call (source: `DataCleaner.handleUpload`). -/
inductive ApiCall where
  | cleanApi
  | uploadApi
  | generateApi
  | executeApi
deriving DecidableEq, Repr

def handleUploadCalls (s : UIState) : List ApiCall :=
  match s.mode with
  | .quick => [.cleanApi]
  | .interactive => [.uploadApi]

/-- Which backend collaborators a request passed through. -/
structure BackendTrace where
  usedGenerator : Bool
  usedValidator : Bool
  usedExecutorCtx : Bool
deriving DecidableEq, Repr

/-- Modelled from the spec: the fixed deterministic transformation set
of the rule-based `/clean` endpoint (`backend/app/cleaner.py` not in
src/). -/
def fixedCleanOps : List Op := [.dropDup, .dropNulls]

/-- Modelled from the spec: the `/clean` endpoint — applies the fixed
rule set inside the executor's resource-limited context, with no
generated code, no generation collaborator and no validator involved;
it never reads the ambient environment. -/
def cleanEndpoint (t : Table) (env : Env) : ExecOutcome × BackendTrace :=
  (if fixedCleanOps.length > defaultTimeout then .resourceExceeded
   else .success (runOps fixedCleanOps t),
   { usedGenerator := false, usedValidator := false, usedExecutorCtx := true })

/-- Claim C1 (spec-modelled executor): for every accepted code string
and table, the executor's result does not depend on the ambient
environment (wall clock, random seed, external state), so repeated
invocations on the same `(source, table)` pair produce identical
output. -/
theorem claimC1 (c : String) (t : Table) (e1 e2 : Env)
    (h : validate c = VResult.accept) :
    executeEnv c t e1 = executeEnv c t e2 := rfl

/-- Ambient environment distinct from the default one, used in
witnesses. -/
def envA : Env := { wallClock := 12, randomSeed := 34, externalState := ["boot"] }

/-- A small concrete table used by several witnesses. -/
def demoTable : Table :=
  { cols := ["a"], rows := [[Cell.num 1], [Cell.num 1], [Cell.null]] }

/-- Claim C1 witness: the accepted drop-duplicates source evaluates
identically under two different ambient environments. -/
theorem claimC1_witness :
    executeEnv lineDropDup demoTable envA = executeEnv lineDropDup demoTable defaultEnv :=
  claimC1 lineDropDup demoTable envA defaultEnv (by decide)

/-- Claim C2 (spec-modelled validator): every code string mentioning a
denylisted identifier is rejected by `validate`, and the request
pipeline then reports the rejection without ever invoking the
executor. -/
theorem claimC2 (source : String) (t : Table)
    (h : containsForbidden source = true) :
    validate source = VResult.reject reasonForbidden ∧
    (runRequest source t).1 = ExecOutcome.validationRejected reasonForbidden ∧
    (runRequest source t).2 = false := by
  have hv : validate source = VResult.reject reasonForbidden := by
    unfold validate
    rw [if_pos h]
  refine ⟨hv, ?_, ?_⟩ <;> unfold runRequest <;> rw [hv]

/-- The README's Scenario B source. -/
def srcForbidden : String := "import os"

/-- Claim C2 witness: `import os` is rejected and the executor is not
invoked. -/
theorem claimC2_witness :
    validate srcForbidden = VResult.reject reasonForbidden ∧
    (runRequest srcForbidden demoTable).2 = false :=
  ⟨(claimC2 srcForbidden demoTable (by decide)).1,
   (claimC2 srcForbidden demoTable (by decide)).2.2⟩

/-- Claim C3 (spec-modelled executor and store): whenever an execute
request ends in `resourceExceeded`, the session store after the call
is exactly the store before it — the partial mutation lived only in
the executor's private copy. -/
theorem claimC3 (st : SessionStore) (id : String) (source : String)
    (h : isResourceExceeded (execEndpoint st id source).1 = true) :
    (execEndpoint st id source).2 = st := by
  have happly : ∀ sess : Session,
      isResourceExceeded (execApply st id source sess).1 = true →
      (execApply st id source sess).2 = st := by
    intro sess
    unfold execApply
    cases runRequest source sess.table with
    | mk out invoked =>
      cases out with
      | success t2 =>
        intro hx
        simp [isResourceExceeded] at hx
      | validationRejected r => intro _; rfl
      | runtimeError k => intro _; rfl
      | resourceExceeded => intro _; rfl
  unfold execEndpoint at h ⊢
  revert h
  cases getSession st id with
  | error e => intro _; rfl
  | ok sess => exact happly sess

def demoSession : Session := { table := demoTable, history := [] }

def demoSid : String := "s1"

def demoStore : SessionStore := [(demoSid, demoSession)]

def nlStr : String := "\n"

/-- Six accepted operation lines: more than the execution budget. -/
def srcLong : String :=
  lineDropDup ++ nlStr ++ lineDropDup ++ nlStr ++ lineDropDup ++ nlStr ++
  lineDropDup ++ nlStr ++ lineDropDup ++ nlStr ++ lineDropDup

/-- Claim C3 witness: a six-operation source exceeds the budget of
five, the outcome is `resourceExceeded`, and the store is unchanged. -/
theorem claimC3_witness : (execEndpoint demoStore demoSid srcLong).2 = demoStore :=
  claimC3 demoStore demoSid srcLong (by decide)

/-- Claim C7 (frontend source plus spec-modelled `/clean`): quick mode
is a bypass path from the upload step straight to the result step; it
issues exactly one clean call — neither the generation endpoint nor
the execute endpoint — while the clean endpoint runs the fixed
deterministic rule set inside the executor's resource-limited context
without generator or validator; and when the generation collaborator
is unavailable (every call fails), the interactive path cannot leave
the preview step, so the bypass is the only usable path. -/
theorem claimC7 (s : UIState) (r : RemoteResult) (uo : Except String UploadResp)
    (t : Table) (e1 e2 : Env) (hm : s.mode = Mode.quick) :
    (handleUpload s (.ok r) uo).step = Step.result ∧
    handleUploadCalls s = [ApiCall.cleanApi] ∧
    ApiCall.generateApi ∉ handleUploadCalls s ∧
    ApiCall.executeApi ∉ handleUploadCalls s ∧
    (cleanEndpoint t e1).2.usedGenerator = false ∧
    (cleanEndpoint t e1).2.usedValidator = false ∧
    (cleanEndpoint t e1).2.usedExecutorCtx = true ∧
    cleanEndpoint t e1 = cleanEndpoint t e2 ∧
    (∀ s2 : UIState, ∀ msg : String, s2.step = Step.preview →
      (handleGenerateCode s2 (Except.error msg)).step = Step.preview) := by
  refine ⟨?_, ?_, ?_, ?_, rfl, rfl, rfl, rfl, ?_⟩
  · unfold handleUpload
    rw [hm]
  · unfold handleUploadCalls
    rw [hm]
  · unfold handleUploadCalls
    rw [hm]
    simp
  · unfold handleUploadCalls
    rw [hm]
    simp
  · intro s2 msg h2
    unfold handleGenerateCode
    by_cases hi : jsTrim s2.instruction = ""
    · rw [if_pos hi]
      exact h2
    · rw [if_neg hi]
      exact h2

/-- A fresh component state in quick mode. -/
def demoQuickState : UIState :=
  { step := .upload, mode := .quick, sessionId := none, uploadData := none
    instruction := "", generatedCode := "", result := none, errorMsg := none }

/-- Claim C7 witness: the theorem applied at a concrete quick-mode
state and table. -/
theorem claimC7_witness :
    (handleUpload demoQuickState (.ok ⟨"rows"⟩) (.error ("down"))).step = Step.result ∧
    handleUploadCalls demoQuickState = [ApiCall.cleanApi] :=
  ⟨(claimC7 demoQuickState ⟨"rows"⟩ (.error ("down")) demoTable envA defaultEnv rfl).1,
   (claimC7 demoQuickState ⟨"rows"⟩ (.error ("down")) demoTable envA defaultEnv rfl).2.1⟩

theorem any_filter_ne (id : String) (l : SessionStore) :
    (l.filter (fun p => decide (p.1 ≠ id))).any (fun p => decide (p.1 = id)) = false := by
  induction l with
  | nil => rfl
  | cons p ps ih =>
    by_cases hp : p.1 = id
    · simp [List.filter_cons, hp, ih]
    · simp [List.filter_cons, hp, ih]

theorem find?_eq_none_of_any_false {l : SessionStore} {id : String}
    (h : l.any (fun p => decide (p.1 = id)) = false) :
    l.find? (fun p => decide (p.1 = id)) = none := by
  rw [List.find?_eq_none]
  intro x hx hpx
  have ht : l.any (fun p => decide (p.1 = id)) = true :=
    List.any_eq_true.mpr ⟨x, hx, hpx⟩
  rw [h] at ht
  exact absurd ht (by simp)

/-- Claim C9 (spec-modelled store): deletion is idempotent — the
second of two deletes of the same id returns `false` without failing,
deleting an absent id returns `false`, and after deletion every
`get(id)` fails with NotFound. -/
theorem claimC9 (st : SessionStore) (id : String) :
    (deleteSession (deleteSession st id).1 id).2 = false ∧
    (st.any (fun p => decide (p.1 = id)) = false → (deleteSession st id).2 = false) ∧
    getSession (deleteSession st id).1 id = Except.error SessionErr.notFound ∧
    getSession (deleteSession (deleteSession st id).1 id).1 id =
      Except.error SessionErr.notFound := by
  by_cases hany : st.any (fun p => decide (p.1 = id)) = true
  · have hdel : deleteSession st id = (st.filter (fun p => decide (p.1 ≠ id)), true) := by
      unfold deleteSession
      rw [if_pos hany]
    have hany2 : (st.filter (fun p => decide (p.1 ≠ id))).any
        (fun p => decide (p.1 = id)) = false := any_filter_ne id st
    have hdel2 : deleteSession (st.filter (fun p => decide (p.1 ≠ id))) id =
        (st.filter (fun p => decide (p.1 ≠ id)), false) := by
      unfold deleteSession
      rw [if_neg (by simp [hany2])]
    have hget : getSession (st.filter (fun p => decide (p.1 ≠ id))) id =
        Except.error SessionErr.notFound := by
      unfold getSession
      rw [find?_eq_none_of_any_false hany2]
    refine ⟨?_, ?_, ?_, ?_⟩
    · rw [hdel]
      show (deleteSession (st.filter (fun p => decide (p.1 ≠ id))) id).2 = false
      rw [hdel2]
    · intro hcontra
      rw [hany] at hcontra
      exact absurd hcontra (by simp)
    · rw [hdel]
      exact hget
    · rw [hdel]
      show getSession (deleteSession (st.filter (fun p => decide (p.1 ≠ id))) id).1 id =
        Except.error SessionErr.notFound
      rw [hdel2]
      exact hget
  · have hanyf : st.any (fun p => decide (p.1 = id)) = false := by
      cases h2 : st.any (fun p => decide (p.1 = id)) with
      | false => rfl
      | true => exact absurd h2 hany
    have hdel : deleteSession st id = (st, false) := by
      unfold deleteSession
      rw [if_neg hany]
    have hget : getSession st id = Except.error SessionErr.notFound := by
      unfold getSession
      rw [find?_eq_none_of_any_false hanyf]
    refine ⟨?_, fun _ => ?_, ?_, ?_⟩
    · rw [hdel]
      show (deleteSession st id).2 = false
      rw [hdel]
    · rw [hdel]
    · rw [hdel]
      exact hget
    · rw [hdel]
      show getSession (deleteSession st id).1 id = Except.error SessionErr.notFound
      rw [hdel]
      exact hget

/-- Claim C9 witness: the theorem applied at a concrete one-session
store. -/
theorem claimC9_witness :
    (deleteSession (deleteSession demoStore demoSid).1 demoSid).2 = false ∧
    getSession (deleteSession demoStore demoSid).1 demoSid =
      Except.error SessionErr.notFound :=
  ⟨(claimC9 demoStore demoSid).1, (claimC9 demoStore demoSid).2.2.1⟩

end DataClean
